import Mathlib

/-!
Verification of the JarvisAI Memory Engine
(`jarvis-core/memory/enhanced_memory_manager.py`).

This file gives a shallow embedding of the Memory Engine: records, the
durable store (a list of rows in insertion order, mirroring the SQLite
table), the hot cache (association lists mirroring Python dicts with
insertion-ordered keys), the save / search / cleanup paths, and the
session-message buffer.  External collaborators (the Mem0 delegate, the
sentence encoder, the numpy cosine similarity and the MD5 digest) are
modelled as injected functions in a `Config` record, exactly as the spec
treats them (pluggable providers).  Machine floats are modelled by `ℚ`;
timestamps by `Nat`.

Conventions:
* Python dict           -> `List (key × value)` with first-occurrence keys;
  assignment overwrites in place, new keys append at the end.
* SQLite `ORDER BY ... LIMIT n` -> stable `List.mergeSort` + `sqlLimit`.
* Python truthiness of strings/ints is modelled explicitly where the code
  relies on it (`if expires_in_days:`, `if result_id ...`).
-/

/-- The metadata fields the Engine itself reads (`metadata.get("type")`,
`metadata.get("key")`).  All other metadata is passed through opaquely and
never inspected by the Engine, so it is not modelled. -/
structure Metadata where
  mtype : Option String := none
  key : Option String := none
  deriving DecidableEq, Repr

/-- One row of the `memories` table. -/
structure MemRecord where
  id : String
  memory_type : String
  content : String
  metadata : Metadata
  embedding : Option (List ℚ)
  importance : ℚ
  access_count : Nat
  user_id : String
  hash : String
  created_at : Nat
  updated_at : Nat
  expires_at : Option Nat
  deriving DecidableEq, Repr

/-- One value of a hot-cache partition (`self.memory_cache[type][key]`). -/
structure CacheEntry where
  id : String
  content : String
  metadata : Metadata
  importance : ℚ
  cached_at : Nat
  deriving DecidableEq, Repr

/-- One result dict produced by the search path. -/
structure SearchResult where
  id : String
  rtype : String
  content : String
  metadata : Metadata
  importance : ℚ
  relevance_score : ℚ
  source : String
  created_at : Nat
  deriving DecidableEq, Repr

/-- One hit returned by the Mem0 delegate search. -/
structure Mem0Hit where
  id : String
  memory : String
  metadata : Metadata
  score : ℚ
  created_at : Nat
  deriving DecidableEq, Repr

/-- The Mem0 delegate client (external, injected).  `add` returns the
delegate id when the mirrored save produced one. -/
structure Mem0Client where
  search : String → String → Nat → List Mem0Hit
  add : String → String → Option String

/-- Injected external providers: the MD5 digest, the optional Mem0 client,
the optional sentence encoder, and the numpy cosine similarity (which is
irrational float math in the source, hence injected). -/
structure Config where
  hashFn : String → String
  mem0_client : Option Mem0Client
  encoder : Option (String → List ℚ)
  cosine : List ℚ → List ℚ → ℚ

/-- One message held in the in-process session buffer
(`self.session_memories`). -/
structure SessionMsg where
  id : String
  role : String
  content : String
  timestamp : Nat
  deriving DecidableEq, Repr

/-- One row of the `session_memories` table. -/
structure SessionRow where
  id : String
  session_id : String
  role : String
  content : String
  timestamp : Nat
  deriving DecidableEq, Repr

/-- A hot-cache partition: a Python dict keyed by cache key. -/
abbrev CachePartition := List (String × CacheEntry)

/-- The whole hot cache: a Python dict keyed by memory kind. -/
abbrev Cache := List (String × CachePartition)

/-- The full in-process state of `EnhancedMemoryManager`, together with the
durable store tables. -/
structure EngineState where
  db : List MemRecord
  session_db : List SessionRow
  mappings : List (String × String)
  memory_cache : Cache
  memory_hashes : List String
  current_session_id : Option String
  session_memories : List SessionMsg
  nextId : Nat
  deriving Repr

/-- `importance_threshold` from `__init__`. -/
def importance_threshold : ℚ := mkRat 8 10

/-- `max_cache_size` from `__init__`. -/
def max_cache_size : Nat := 1000

/-- Char-list prefix test (auxiliary for the substring test). -/
def leadsWith : List Char → List Char → Bool
  | [], _ => true
  | _ :: _, [] => false
  | a :: as, b :: bs => a == b && leadsWith as bs

/-- Char-list substring test (auxiliary for the substring test). -/
def occursIn (needle : List Char) : List Char → Bool
  | [] => leadsWith needle []
  | b :: bs => leadsWith needle (b :: bs) || occursIn needle bs

/-- Python `sub in s` on strings: substring containment. -/
def strContains (s sub : String) : Bool :=
  occursIn sub.data s.data

/-- Python `s.lower()` (modelled code-point-wise; ASCII case folding, which
also models SQLite's ASCII-only LIKE case folding). -/
def lowerStr (s : String) : String :=
  ⟨s.data.map Char.toLower⟩

/-- Python `s.split()` with no separator: split on whitespace and drop
empty words. -/
def pyWords (s : String) : List String :=
  ((s.data.splitOnP Char.isWhitespace).map (fun l => String.mk l)).filter
    (fun w => w ≠ "")

/-- Python slice `l[:n]` including the negative-index case. -/
def pySlice (n : Int) (l : List α) : List α :=
  if 0 ≤ n then l.take n.toNat else l.take (l.length - (-n).toNat)

/-- SQLite `LIMIT n`: a negative limit means no limit. -/
def sqlLimit (n : Int) (l : List α) : List α :=
  if n < 0 then l else l.take n.toNat

/-- The importance-signal keyword list of `_calculate_importance`. -/
def important_keywords : List String :=
  ["重要", "关键", "目标", "计划", "偏好", "喜欢", "不喜欢"]

/-- `EnhancedMemoryManager._calculate_importance`: base 0.5, +0.1 for long
content, a `metadata.type` boost (only one branch of the `elif` chain
fires), +0.1 for an importance-signal keyword, capped above at 1. -/
def calculate_importance (content : String) (metadata : Metadata) : ℚ :=
  let imp : ℚ := mkRat 1 2
  let imp := if content.length > 100 then imp + mkRat 1 10 else imp
  let imp :=
    if metadata.mtype = some "preference" then imp + mkRat 3 10
    else if metadata.mtype = some "goal" then imp + mkRat 4 10
    else if metadata.mtype = some "relationship" then imp + mkRat 2 10
    else imp
  let imp :=
    if important_keywords.any (fun k => strContains content k) then
      imp + mkRat 1 10
    else imp
  min imp 1

/-- The claim C8 formula, written exactly as the spec states it: base plus
three independent boosts, clamped to the unit interval. -/
def spec_importance (content : String) (metadata : Metadata) : ℚ :=
  let lenBoost : ℚ := if content.length > 100 then mkRat 1 10 else 0
  let typeBoost : ℚ :=
    if metadata.mtype = some "preference" then mkRat 3 10
    else if metadata.mtype = some "goal" then mkRat 4 10
    else if metadata.mtype = some "relationship" then mkRat 2 10
    else 0
  let kwBoost : ℚ :=
    if important_keywords.any (fun k => strContains content k) then
      mkRat 1 10
    else 0
  min (max (mkRat 1 2 + lenBoost + typeBoost + kwBoost) 0) 1

/-- `EnhancedMemoryManager._calculate_text_similarity`: Jaccard overlap of
the lower-cased whitespace-split word sets of query and content. -/
def calculate_text_similarity (query content : String) : ℚ :=
  let qw := (pyWords (lowerStr query)).dedup
  let cw := (pyWords (lowerStr content)).dedup
  if qw = [] ∨ cw = [] then 0
  else
    let inter := (qw.filter (fun w => w ∈ cw)).length
    let union := qw.length + (cw.filter (fun w => w ∉ qw)).length
    mkRat (inter : Int) union

/-- `EnhancedMemoryManager._get_memory_id_by_hash`: `SELECT id FROM
memories WHERE hash = ?` and `fetchone` in rowid (insertion) order; `None`
when no row matches. -/
def get_memory_id_by_hash (db : List MemRecord) (content_hash : String) :
    Option String :=
  (db.find? (fun r => r.hash = content_hash)).map (·.id)

/-- One comparison step of Python `min` with an importance key: the
running minimum of the tail beats the head only when strictly smaller, so
the first minimal item wins. -/
def pyMinStep (x : String × CacheEntry) :
    Option (String × CacheEntry) → String × CacheEntry
  | none => x
  | some m => if m.2.importance < x.2.importance then m else x

/-- Python `min(d.items(), key=lambda x: x[1]["importance"])`: the first
item (in dict insertion order) attaining the minimal importance. -/
def pyMinImportance : CachePartition → Option (String × CacheEntry)
  | [] => none
  | x :: xs => some (pyMinStep x (pyMinImportance xs))

/-- Python `del d[k]`: drop the (unique) binding of `k`. -/
def dictErase (d : CachePartition) (k : String) : CachePartition :=
  d.eraseP (fun p => p.1 == k)

/-- Python `d[k] = v`: overwrite in place if the key exists, else append. -/
def dictInsert (d : CachePartition) (k : String) (v : CacheEntry) :
    CachePartition :=
  if d.any (fun p => p.1 = k) then
    d.map (fun p => if p.1 = k then (k, v) else p)
  else d ++ [(k, v)]

/-- The partition-level body of `EnhancedMemoryManager._add_to_cache`:
evict the first minimal-importance entry when at capacity, then insert
under `metadata.get("key", memory_id)`. -/
def add_to_partition (now : Nat) (part : CachePartition) (memory_id : String)
    (content : String) (metadata : Metadata) (importance : ℚ) :
    CachePartition :=
  let part :=
    if part.length ≥ max_cache_size then
      match pyMinImportance part with
      | some least => dictErase part least.1
      | none => part
    else part
  let key := metadata.key.getD memory_id
  dictInsert part key
    { id := memory_id, content := content, metadata := metadata,
      importance := importance, cached_at := now }

/-- Partition lookup in the cache dict (empty when the kind is absent). -/
def getPartition (c : Cache) (kind : String) : CachePartition :=
  ((c.find? (fun p => p.1 = kind)).map (·.2)).getD []

/-- `self.memory_cache[memory_type] = {}` when the kind is absent. -/
def ensureKind (c : Cache) (kind : String) : Cache :=
  if c.any (fun p => p.1 = kind) then c else c ++ [(kind, [])]

/-- Overwrite one partition of the cache dict. -/
def setPartition (c : Cache) (kind : String) (part : CachePartition) :
    Cache :=
  c.map (fun p => if p.1 = kind then (kind, part) else p)

/-- `EnhancedMemoryManager._add_to_cache` at the level of the whole cache
dict. -/
def add_to_cache (now : Nat) (c : Cache) (memory_type memory_id : String)
    (content : String) (metadata : Metadata) (importance : ℚ) : Cache :=
  let c := ensureKind c memory_type
  setPartition c memory_type
    (add_to_partition now (getPartition c memory_type) memory_id content
      metadata importance)

/-- Engine-generated fresh id (the model of `uuid.uuid4()`:
an injective generator). -/
def freshId (n : Nat) : String := "uuid-" ++ toString n

/-- `EnhancedMemoryManager.save_memory`: hash, dedup short-circuit,
importance scoring, expiry stamp, optional embedding, durable insert,
best-effort Mem0 mirror (recorded in `mem0_mappings`), hash-set insert and
conditional cache admission.  Returns the id (or `None` on the dedup path
when no row carries the hash). -/
def save_memory (cfg : Config) (now : Nat) (st : EngineState)
    (memory_type content : String) (metadata : Metadata)
    (importance? : Option ℚ) (expires_in_days? : Option Nat)
    (user_id : String) : Option String × EngineState :=
  let content_hash := cfg.hashFn content
  if content_hash ∈ st.memory_hashes then
    (get_memory_id_by_hash st.db content_hash, st)
  else
    let importance := importance?.getD (calculate_importance content metadata)
    let expires_at : Option Nat :=
      match expires_in_days? with
      | some d => if d ≠ 0 then some (now + d) else none
      | none => none
    let embedding := cfg.encoder.map (fun enc => enc content)
    let memory_id := freshId st.nextId
    let row : MemRecord :=
      { id := memory_id, memory_type := memory_type, content := content,
        metadata := metadata, embedding := embedding,
        importance := importance, access_count := 0, user_id := user_id,
        hash := content_hash, created_at := now, updated_at := now,
        expires_at := expires_at }
    let mappings :=
      match cfg.mem0_client with
      | some c =>
        match c.add content user_id with
        | some mem0_id => st.mappings ++ [(memory_id, mem0_id)]
        | none => st.mappings
      | none => st.mappings
    let cache :=
      if importance ≥ importance_threshold then
        add_to_cache now st.memory_cache memory_type memory_id content
          metadata importance
      else st.memory_cache
    (some memory_id,
      { st with
        db := st.db ++ [row],
        mappings := mappings,
        memory_hashes := st.memory_hashes ++ [content_hash],
        memory_cache := cache,
        nextId := st.nextId + 1 })

/-- Stable-sort key of `_search_database`:
`ORDER BY importance DESC, access_count DESC`. -/
def dbRowLe (a b : MemRecord) : Bool :=
  decide (b.importance < a.importance ∨
    (b.importance = a.importance ∧ b.access_count ≤ a.access_count))

/-- Stable-sort key of the vector-search SQL: `ORDER BY importance DESC`. -/
def vecRowLe (a b : MemRecord) : Bool :=
  decide (b.importance ≤ a.importance)

/-- Stable-sort key of `results.sort(key=relevance_score, reverse=True)`
inside `_vector_search`. -/
def relLe (a b : SearchResult) : Bool :=
  decide (b.relevance_score ≤ a.relevance_score)

/-- Stable-sort key of the final
`results.sort(key=lambda x: (relevance_score, importance), reverse=True)`. -/
def finalLe (a b : SearchResult) : Bool :=
  decide (b.relevance_score < a.relevance_score ∨
    (b.relevance_score = a.relevance_score ∧ b.importance ≤ a.importance))

/-- Whether a row is still live at `now` (the SQL predicate
`expires_at IS NULL OR expires_at > CURRENT_TIMESTAMP`). -/
def rowLive (now : Nat) (r : MemRecord) : Bool :=
  match r.expires_at with
  | none => true
  | some t => decide (now < t)

/-- The WHERE clause of `_search_database` (owner, optional kind filter,
`content LIKE '%query%'`, non-expired). -/
def matches_db_row (now : Nat) (query memory_type uid : String)
    (r : MemRecord) : Bool :=
  r.user_id == uid
    && (memory_type == "all" || r.memory_type == memory_type)
    && strContains (lowerStr r.content) (lowerStr query)
    && rowLive now r

/-- `EnhancedMemoryManager._search_database`: keyword scan of the durable
store, ordered by `(importance, access_count)` descending, capped by the
SQL limit, each row scored with the Jaccard similarity. -/
def search_database (now : Nat) (db : List MemRecord)
    (query memory_type : String) (limit : Int) (uid : String) :
    List SearchResult :=
  let rows := db.filter (matches_db_row now query memory_type uid)
  let rows := sqlLimit limit (rows.mergeSort dbRowLe)
  rows.map (fun r =>
    { id := r.id, rtype := r.memory_type, content := r.content,
      metadata := r.metadata, importance := r.importance,
      relevance_score := calculate_text_similarity query r.content,
      source := "database", created_at := r.created_at })

/-- `EnhancedMemoryManager._vector_search`: cosine scan over embedded,
non-expired rows of the owner/kind, prefiltered to the 100 most important,
kept above the 0.3 floor, sorted by similarity descending, sliced to the
limit. -/
def vector_search (cfg : Config) (now : Nat) (db : List MemRecord)
    (query memory_type : String) (limit : Int) (uid : String) :
    List SearchResult :=
  match cfg.encoder with
  | none => []
  | some enc =>
    let qv := enc query
    let rows := db.filter (fun r =>
      r.user_id == uid
        && (memory_type == "all" || r.memory_type == memory_type)
        && r.embedding.isSome && rowLive now r)
    let rows := sqlLimit 100 (rows.mergeSort vecRowLe)
    let results := rows.filterMap (fun r =>
      match r.embedding with
      | some e =>
        let s := cfg.cosine qv e
        if mkRat 3 10 < s then
          some { id := r.id, rtype := r.memory_type, content := r.content,
                 metadata := r.metadata, importance := r.importance,
                 relevance_score := s, source := "vector",
                 created_at := r.created_at }
        else none
      | none => none)
    pySlice limit (results.mergeSort relLe)

/-- The cache partitions `_traditional_search` scans: every kind for
`"all"`, else the requested kind when the cache dict knows it. -/
def search_types (c : Cache) (memory_type : String) : List String :=
  if memory_type = "all" then c.map (·.1)
  else if c.any (fun p => p.1 = memory_type) then [memory_type] else []

/-- The cache half of `_traditional_search`: a linear scan of the selected
partitions, substring match on lower-cased content, Jaccard relevance. -/
def cache_scan (st : EngineState) (query memory_type : String) :
    List SearchResult :=
  ((search_types st.memory_cache memory_type).map (fun t =>
    ((getPartition st.memory_cache t).filter
      (fun p => strContains (lowerStr p.2.content) (lowerStr query))).map
      (fun p =>
        { id := p.2.id, rtype := t, content := p.2.content,
          metadata := p.2.metadata, importance := p.2.importance,
          relevance_score := calculate_text_similarity query p.2.content,
          source := "cache", created_at := p.2.cached_at }))).flatten

/-- `EnhancedMemoryManager._traditional_search` appending into the shared
`results` list: cache hits first, then the durable-store scan with the
remaining budget (all limit arithmetic in `Int`, as in Python). -/
def traditional_search (now : Nat) (st : EngineState)
    (query memory_type : String) (tlimit : Int)
    (init : List SearchResult) (uid : String) : List SearchResult :=
  let afterCache := init ++ cache_scan st query memory_type
  if (afterCache.length : Int) < tlimit then
    afterCache ++
      search_database now st.db query memory_type
        (tlimit - afterCache.length) uid
  else afterCache

/-- Translation of one Mem0 hit inside `search_memory`: resolve the
delegate id through `mem0_mappings` joined with `memories`
(`_get_local_memory_by_mem0_id`), else surface the delegate hit as is. -/
def translate_hit (st : EngineState) (h : Mem0Hit) : SearchResult :=
  let fallback : SearchResult :=
    { id := h.id, rtype := "unknown", content := h.memory,
      metadata := h.metadata, importance := mkRat 1 2,
      relevance_score := h.score, source := "mem0_only",
      created_at := h.created_at }
  match st.mappings.find? (fun p => p.2 = h.id) with
  | some p =>
    match st.db.find? (fun r => r.id = p.1) with
    | some row =>
      { id := row.id, rtype := row.memory_type, content := row.content,
        metadata := row.metadata, importance := row.importance,
        relevance_score := h.score, source := "mem0",
        created_at := row.created_at }
    | none => fallback
  | none => fallback

/-- The Mem0 phase of `search_memory`: delegate hits translated to local
records, empty when the client is absent or semantic search is off. -/
def mem0_results (cfg : Config) (st : EngineState) (query uid : String)
    (limit : Nat) (use_semantic : Bool) : List SearchResult :=
  match cfg.mem0_client with
  | some c =>
    if use_semantic then (c.search query uid limit).map (translate_hit st)
    else []
  | none => []

/-- The early-exit test of `search_memory`: the Mem0 phase ran and alone
already filled the limit. -/
def early_exit_fires (cfg : Config) (st : EngineState) (query uid : String)
    (limit : Nat) (use_semantic : Bool) : Bool :=
  (cfg.mem0_client.isSome && use_semantic)
    && decide ((mem0_results cfg st query uid limit use_semantic).length ≥ limit)

/-- `EnhancedMemoryManager._deduplicate_results`: keep an entry when its id
is truthy and fresh, else when its content hash is fresh; the two
seen-sets are disjoint bookkeeping (the id branch records only the id, the
hash branch records only the hash). -/
def deduplicate_go (hashFn : String → String)
    (seen_ids seen_content : List String) :
    List SearchResult → List SearchResult
  | [] => []
  | r :: rest =>
    let content_hash := hashFn r.content
    if r.id ≠ "" ∧ r.id ∉ seen_ids then
      r :: deduplicate_go hashFn (r.id :: seen_ids) seen_content rest
    else if content_hash ∉ seen_content then
      r :: deduplicate_go hashFn seen_ids (content_hash :: seen_content) rest
    else deduplicate_go hashFn seen_ids seen_content rest

/-- `EnhancedMemoryManager._deduplicate_results` with empty seen-sets. -/
def deduplicate_results (hashFn : String → String)
    (results : List SearchResult) : List SearchResult :=
  deduplicate_go hashFn [] [] results

/-- The same recursion as `deduplicate_go`, additionally tagging every kept
entry with `true` when the id rule admitted it and `false` when the
content-hash rule did.  Used to state the corrected claim C7. -/
def dedup_tagged_go (hashFn : String → String)
    (seen_ids seen_content : List String) :
    List SearchResult → List (SearchResult × Bool)
  | [] => []
  | r :: rest =>
    let content_hash := hashFn r.content
    if r.id ≠ "" ∧ r.id ∉ seen_ids then
      (r, true) :: dedup_tagged_go hashFn (r.id :: seen_ids) seen_content rest
    else if content_hash ∉ seen_content then
      (r, false) ::
        dedup_tagged_go hashFn seen_ids (content_hash :: seen_content) rest
    else dedup_tagged_go hashFn seen_ids seen_content rest

/-- Tagged deduplication with empty seen-sets. -/
def dedup_tagged (hashFn : String → String)
    (results : List SearchResult) : List (SearchResult × Bool) :=
  dedup_tagged_go hashFn [] [] results

/-- `EnhancedMemoryManager._update_access_counts`: one `UPDATE ... SET
access_count = access_count + 1` per id in the list (duplicated ids hit
the same row several times). -/
def update_access_counts (now : Nat) (db : List MemRecord)
    (memory_ids : List String) : List MemRecord :=
  memory_ids.foldl
    (fun d i => d.map (fun r =>
      if r.id = i then
        { r with access_count := r.access_count + 1, updated_at := now }
      else r))
    db

/-- The deduplicated, fully sorted candidate list of `search_memory` just
before truncation and access counting (the non-early-exit path). -/
def search_candidates (cfg : Config) (now : Nat) (st : EngineState)
    (query memory_type : String) (limit : Nat) (uid : String)
    (use_semantic : Bool) : List SearchResult :=
  let r0 := mem0_results cfg st query uid limit use_semantic
  let r1 := traditional_search now st query memory_type
    ((limit : Int) - r0.length) r0 uid
  let r2 :=
    if cfg.encoder.isSome ∧ r1.length < limit then
      r1 ++ vector_search cfg now st.db query memory_type
        ((limit : Int) - r1.length) uid
    else r1
  (deduplicate_results cfg.hashFn r2).mergeSort finalLe

/-- `EnhancedMemoryManager.search_memory`: Mem0 phase with early exit,
then cache / durable / vector fan-out, dedup, `(relevance, importance)`
descending sort, batched access-count update over every candidate id, and
truncation to `limit`. -/
def search_memory (cfg : Config) (now : Nat) (st : EngineState)
    (query memory_type : String) (limit : Nat) (uid : String)
    (use_semantic : Bool) : List SearchResult × EngineState :=
  if early_exit_fires cfg st query uid limit use_semantic then
    ((mem0_results cfg st query uid limit use_semantic).take limit, st)
  else
    let s := search_candidates cfg now st query memory_type limit uid
      use_semantic
    (s.take limit,
      { st with db := update_access_counts now st.db (s.map (·.id)) })

/-- Modelled from the spec: `EnhancedMemoryManager.update_memory` is
called by the façades (`user_memory.py`, `agent_memory.py`) but is defined
nowhere in the repository; spec §4.3 gives its contract — update metadata
and importance only, never content or `content_hash`, and return false
without raising when the id does not exist. -/
def update_memory (now : Nat) (db : List MemRecord) (memory_id : String)
    (metadata? : Option Metadata) (importance? : Option ℚ) :
    Bool × List MemRecord :=
  if db.any (fun r => r.id = memory_id) then
    (true,
      db.map (fun r =>
        if r.id = memory_id then
          { r with metadata := metadata?.getD r.metadata,
                   importance := importance?.getD r.importance,
                   updated_at := now }
        else r))
  else (false, db)

/-- `EnhancedMemoryManager._is_important_session_content`. -/
def is_important_session_content (content role : String) : Bool :=
  if role = "user" then
    ["重要", "记住", "不要忘记", "以后", "下次", "提醒", "目标", "计划"].any
      (fun k => strContains content k)
  else if role = "assistant" then
    content.length > 200 ||
      ["建议", "方案", "步骤", "方法"].any (fun k => strContains content k)
  else false

/-- `EnhancedMemoryManager.save_session_memory`: insert the message row,
append to the in-process buffer when the session is current (keeping only
the last 100 messages), and promote important content to a long-term
`session` memory. -/
def save_session_memory (cfg : Config) (now : Nat) (st : EngineState)
    (session_id role content : String) : String × EngineState :=
  let memory_id := freshId st.nextId
  let row : SessionRow :=
    { id := memory_id, session_id := session_id, role := role,
      content := content, timestamp := now }
  let st := { st with session_db := st.session_db ++ [row],
                      nextId := st.nextId + 1 }
  let st :=
    if some session_id = st.current_session_id then
      let buf := st.session_memories ++
        [{ id := memory_id, role := role, content := content,
           timestamp := now }]
      let buf := if buf.length > 100 then buf.drop (buf.length - 100) else buf
      { st with session_memories := buf }
    else st
  let st :=
    if is_important_session_content content role then
      (save_memory cfg now st "session" ("会话内容(" ++ role ++ "): " ++ content)
        { mtype := some "important_session", key := none } (some (mkRat 8 10)) none
        "default").2
    else st
  (memory_id, st)

/-- The five partitions `__init__` creates. -/
def init_cache : Cache :=
  [("user", []), ("session", []), ("agent", []), ("vision", []),
   ("interaction", [])]

/-- A freshly initialized engine. -/
def initState : EngineState :=
  { db := [], session_db := [], mappings := [], memory_cache := init_cache,
    memory_hashes := [], current_session_id := none, session_memories := [],
    nextId := 0 }

/-- Emptying every cache partition (the cache-disabled engine of claim
C4). -/
def clearCache (c : Cache) : Cache := c.map (fun p => (p.1, []))

unseal List.merge List.mergeSort

/-- A configuration with no external providers; the digest is injected as
the identity (any digest with equal digests on equal contents works the
same way in the engine). -/
def cfg0 : Config :=
  { hashFn := fun s => s, mem0_client := none, encoder := none,
    cosine := fun _ _ => 0 }

/-- C8: when the caller does not supply an importance, the computed
importance equals base 0.5, plus 0.1 for content longer than 100, plus the
metadata-type boost (0.3 preference / 0.4 goal / 0.2 relationship), plus
0.1 for an importance-signal keyword, clamped to the unit interval; hence
every computed importance lies in the closed interval from 0 to 1. -/
theorem C8_computed_importance (content : String) (metadata : Metadata) :
    calculate_importance content metadata = spec_importance content metadata ∧
    0 ≤ calculate_importance content metadata ∧
    calculate_importance content metadata ≤ 1 := by
  refine ⟨?_, ?_, ?_⟩ <;>
  · simp only [calculate_importance, spec_importance]
    split_ifs <;> norm_num [Rat.mkRat_eq_div]

/-- C2: the update operation only touches metadata and importance — the
projection of every row to (id, content, hash) is unchanged — and returns
false, with the store untouched and no exception, when the id does not
exist. -/
theorem C2_update_contract (now : Nat) (db : List MemRecord)
    (memory_id : String) (metadata? : Option Metadata)
    (importance? : Option ℚ) :
    ((update_memory now db memory_id metadata? importance?).2.map
        (fun r => (r.id, r.content, r.hash)) =
      db.map (fun r => (r.id, r.content, r.hash))) ∧
    ((∀ r ∈ db, r.id ≠ memory_id) →
      update_memory now db memory_id metadata? importance? = (false, db)) := by
  constructor
  · unfold update_memory
    split
    · simp only [List.map_map]
      apply List.map_congr_left
      intro r _
      by_cases hr : r.id = memory_id <;> simp [hr, Function.comp]
    · rfl
  · intro h
    unfold update_memory
    rw [if_neg]
    simp only [List.any_eq_true, decide_eq_true_eq]
    rintro ⟨r, hr, hid⟩
    exact h r hr hid

/-- A sample durable-store row used to witness C2. -/
def sampleRow : MemRecord :=
  { id := "a", memory_type := "user", content := "hello", metadata := {},
    embedding := none, importance := mkRat 1 2, access_count := 0,
    user_id := "default", hash := "hello", created_at := 0, updated_at := 0,
    expires_at := none }

/-- Witness for C2 at a concrete store and a missing id. -/
theorem C2_update_contract_witness :
    update_memory 1 [sampleRow] "missing" none none = (false, [sampleRow]) :=
  (C2_update_contract 1 [sampleRow] "missing" none none).2 (by decide)


/-- The save path never touches the in-process session buffer. -/
theorem save_memory_keeps_buffer (cfg : Config) (now : Nat)
    (st : EngineState) (memory_type content : String) (metadata : Metadata)
    (importance? : Option ℚ) (expires_in_days? : Option Nat)
    (user_id : String) :
    (save_memory cfg now st memory_type content metadata importance?
        expires_in_days? user_id).2.session_memories =
      st.session_memories := by
  simp only [save_memory]
  by_cases hmem : cfg.hashFn content ∈ st.memory_hashes
  · rw [if_pos hmem]
  · rw [if_neg hmem]

/-- The in-process buffer just after appending the new message and before
the 100-message truncation. -/
def bufferAfter (st : EngineState) (now : Nat) (role content : String) :
    List SessionMsg :=
  st.session_memories ++
    [{ id := freshId st.nextId, role := role, content := content,
       timestamp := now }]

/-- C10: after a call of `save_session_memory` for the current session the
in-process buffer equals the last 100 of the previously buffered messages
followed by the new one (in order), so its size is the old size plus one,
capped at 100. -/
theorem C10_session_buffer (cfg : Config) (now : Nat) (st : EngineState)
    (session_id role content : String)
    (h : st.current_session_id = some session_id) :
    ((save_session_memory cfg now st session_id role
          content).2.session_memories =
      (bufferAfter st now role content).drop
        ((bufferAfter st now role content).length - 100)) ∧
    (save_session_memory cfg now st session_id role
        content).2.session_memories.length =
      min (st.session_memories.length + 1) 100 := by
  have key :
      (save_session_memory cfg now st session_id role
          content).2.session_memories =
        (bufferAfter st now role content).drop
          ((bufferAfter st now role content).length - 100) := by
    simp only [save_session_memory, h, if_true, bufferAfter]
    by_cases hi : is_important_session_content content role = true
    · rw [if_pos hi, save_memory_keeps_buffer]
      dsimp only
      split
      · rfl
      · rename_i hlen
        rw [Nat.sub_eq_zero_of_le (Nat.le_of_not_lt hlen), List.drop_zero]
    · rw [if_neg hi]
      dsimp only
      split
      · rfl
      · rename_i hlen
        rw [Nat.sub_eq_zero_of_le (Nat.le_of_not_lt hlen), List.drop_zero]
  refine ⟨key, ?_⟩
  rw [key]
  simp only [bufferAfter, List.length_drop, List.length_append,
    List.length_cons, List.length_nil]
  omega

/-- Witness for C10: one message appended to a fresh current session. -/
theorem C10_session_buffer_witness :
    ((save_session_memory cfg0 0
          { initState with current_session_id := some "s" } "s" "user"
          "hi").2.session_memories =
      (bufferAfter { initState with current_session_id := some "s" } 0 "user"
          "hi").drop
        ((bufferAfter { initState with current_session_id := some "s" } 0
            "user" "hi").length - 100)) ∧
    (save_session_memory cfg0 0
        { initState with current_session_id := some "s" } "s" "user"
        "hi").2.session_memories.length =
      min (({ initState with
        current_session_id := some "s" } : EngineState).session_memories.length
          + 1) 100 :=
  C10_session_buffer cfg0 0 { initState with current_session_id := some "s" }
    "s" "user" "hi" rfl

/-- On a fresh content hash, `save_memory` takes the insert branch: it
returns the fresh id, appends the hash to the in-memory hash set and
appends exactly one row carrying that hash to the store. -/
theorem save_memory_not_dup (cfg : Config) (now : Nat) (st : EngineState)
    (memory_type content : String) (metadata : Metadata)
    (importance? : Option ℚ) (expires_in_days? : Option Nat)
    (user_id : String) (hh : cfg.hashFn content ∉ st.memory_hashes) :
    (save_memory cfg now st memory_type content metadata importance?
        expires_in_days? user_id).1 = some (freshId st.nextId) ∧
    (save_memory cfg now st memory_type content metadata importance?
        expires_in_days? user_id).2.memory_hashes =
      st.memory_hashes ++ [cfg.hashFn content] ∧
    ∃ row : MemRecord, row.id = freshId st.nextId ∧
      row.hash = cfg.hashFn content ∧
      (save_memory cfg now st memory_type content metadata importance?
          expires_in_days? user_id).2.db = st.db ++ [row] := by
  simp only [save_memory]
  rw [if_neg hh]
  exact ⟨rfl, rfl, _, rfl, rfl, rfl⟩

/-- On a colliding content hash, `save_memory` short-circuits: it returns
the id found by hash lookup and leaves the state untouched. -/
theorem save_memory_dup (cfg : Config) (now : Nat) (st : EngineState)
    (memory_type content : String) (metadata : Metadata)
    (importance? : Option ℚ) (expires_in_days? : Option Nat)
    (user_id : String) (hh : cfg.hashFn content ∈ st.memory_hashes) :
    save_memory cfg now st memory_type content metadata importance?
        expires_in_days? user_id =
      (get_memory_id_by_hash st.db (cfg.hashFn content), st) := by
  simp only [save_memory]
  rw [if_pos hh]

/-- C1 (amended): deduplication is global on the content hash and ignores
the owner.  Starting from any state whose hash set and store do not yet
know the content's hash, a first save inserts one row and returns the
fresh id, and a second save of the same content — under the same or any
other owner — returns that same id, inserts nothing, and exactly one row
with that hash exists.  In particular the same content saved under two
different owners yields one shared record, not two. -/
theorem C1_save_dedup_global (cfg : Config) (now1 now2 : Nat)
    (st : EngineState) (memory_type1 memory_type2 content : String)
    (md1 md2 : Metadata) (imp1 imp2 : Option ℚ) (days1 days2 : Option Nat)
    (u1 u2 : String) (p1 p2 : Option String × EngineState)
    (hp1 : p1 = save_memory cfg now1 st memory_type1 content md1 imp1 days1 u1)
    (hp2 : p2 = save_memory cfg now2 p1.2 memory_type2 content md2 imp2 days2 u2)
    (hh : cfg.hashFn content ∉ st.memory_hashes)
    (hdb : ∀ r ∈ st.db, r.hash ≠ cfg.hashFn content) :
    p1.1 = some (freshId st.nextId) ∧
    p2.1 = some (freshId st.nextId) ∧
    p2.2.db = p1.2.db ∧
    (p1.2.db.filter (fun r => r.hash = cfg.hashFn content)).length = 1 := by
  obtain ⟨h1id, h1hash, row, hrowid, hrowhash, h1db⟩ :=
    save_memory_not_dup cfg now1 st memory_type1 content md1 imp1 days1 u1 hh
  rw [← hp1] at h1id h1hash h1db
  have hmem : cfg.hashFn content ∈ p1.2.memory_hashes := by
    rw [h1hash]
    exact List.mem_append_right _ (List.mem_singleton_self _)
  have hdup := save_memory_dup cfg now2 p1.2 memory_type2 content md2 imp2
    days2 u2 hmem
  rw [← hp2] at hdup
  have hfind : p1.2.db.find? (fun r => r.hash = cfg.hashFn content) =
      some row := by
    rw [h1db, List.find?_append]
    have hnone : st.db.find? (fun r => r.hash = cfg.hashFn content) = none := by
      rw [List.find?_eq_none]
      intro x hx
      simpa using hdb x hx
    rw [hnone]
    simp [List.find?_cons_of_pos, hrowhash]
  refine ⟨h1id, ?_, ?_, ?_⟩
  · rw [hdup]
    simp only [get_memory_id_by_hash, hfind]
    simp [hrowid]
  · rw [hdup]
  · rw [h1db, List.filter_append]
    have hnil : st.db.filter (fun r => r.hash = cfg.hashFn content) = [] := by
      rw [List.filter_eq_nil_iff]
      intro a ha
      simpa using hdb a ha
    rw [hnil]
    simp [hrowhash]

/-- Witness for C1 as amended: concrete double save of the same content
under two different owners from a fresh engine. -/
theorem C1_save_dedup_global_witness :
    (save_memory cfg0 0 initState "user" "c" {} none none "u1").1 =
        some (freshId initState.nextId) ∧
    (save_memory cfg0 0
        (save_memory cfg0 0 initState "user" "c" {} none none "u1").2 "user"
        "c" {} none none "u2").1 = some (freshId initState.nextId) ∧
    (save_memory cfg0 0
        (save_memory cfg0 0 initState "user" "c" {} none none "u1").2 "user"
        "c" {} none none "u2").2.db =
      (save_memory cfg0 0 initState "user" "c" {} none none "u1").2.db ∧
    ((save_memory cfg0 0 initState "user" "c" {} none none
        "u1").2.db.filter (fun r => r.hash = cfg0.hashFn "c")).length = 1 :=
  C1_save_dedup_global cfg0 0 0 initState "user" "user" "c" {} {} none none
    none none "u1" "u2" _ _ rfl rfl (by decide) (by decide)

/-- Counterexample to C1 as stated: the same content saved under the two
distinct owners u1 and u2 returns the same id both times and leaves a
single row, instead of the two distinct per-owner records the claim
requires. -/
theorem C1_counterexample :
    (save_memory cfg0 0
        (save_memory cfg0 0 initState "user" "c" {} none none "u1").2 "user"
        "c" {} none none "u2").1 =
      (save_memory cfg0 0 initState "user" "c" {} none none "u1").1 ∧
    (save_memory cfg0 0
        (save_memory cfg0 0 initState "user" "c" {} none none "u1").2 "user"
        "c" {} none none "u2").2.db.length = 1 := by
  constructor <;> rfl

/-- A minimal search-result dict used in counterexamples. -/
def mkRes (i c : String) : SearchResult :=
  { id := i, rtype := "user", content := c, metadata := {},
    importance := mkRat 1 2, relevance_score := 0, source := "cache",
    created_at := 0 }

/-- Counterexample to C7 as stated: two input entries with the same id but
different contents are both kept — the first through the id rule, the
second through the content-hash rule — so the deduplicated output contains
two entries with the same id. -/
theorem C7_counterexample :
    (deduplicate_results (fun s => s)
        [mkRes "a" "x", mkRes "a" "y"]).map (fun r => r.id) = ["a", "a"] :=
  rfl

/-- Invariant of the tagged deduplication recursion: it projects to the
source recursion, every id-kept entry has an unseen id, every hash-kept
entry has an unseen hash, and the output is pairwise id-distinct on
id-kept entries and pairwise hash-distinct on hash-kept entries. -/
theorem dedup_tagged_go_spec (hashFn : String → String) :
    ∀ (l : List SearchResult) (si sc : List String),
      ((dedup_tagged_go hashFn si sc l).map Prod.fst =
        deduplicate_go hashFn si sc l) ∧
      (∀ p ∈ dedup_tagged_go hashFn si sc l,
        (p.2 = true → p.1.id ∉ si) ∧
        (p.2 = false → hashFn p.1.content ∉ sc)) ∧
      List.Pairwise (fun a b : SearchResult × Bool =>
        (a.2 = true → b.2 = true → a.1.id ≠ b.1.id) ∧
        (a.2 = false → b.2 = false →
          hashFn a.1.content ≠ hashFn b.1.content))
        (dedup_tagged_go hashFn si sc l) := by
  intro l
  induction l with
  | nil => intro si sc; simp [dedup_tagged_go, deduplicate_go]
  | cons r rest ih =>
    intro si sc
    by_cases h1 : r.id ≠ "" ∧ r.id ∉ si
    · obtain ⟨ihmap, ihmem, ihpw⟩ := ih (r.id :: si) sc
      simp only [dedup_tagged_go, deduplicate_go, if_pos h1]
      refine ⟨by simp [ihmap], ?_, ?_⟩
      · intro p hp
        rcases List.mem_cons.mp hp with rfl | hp
        · exact ⟨fun _ => h1.2, fun hf => by simp at hf⟩
        · refine ⟨fun ht => ?_, (ihmem p hp).2⟩
          have := (ihmem p hp).1 ht
          exact fun hin => this (List.mem_cons_of_mem _ hin)
      · rw [List.pairwise_cons]
        refine ⟨?_, ihpw⟩
        intro p hp
        refine ⟨fun _ ht => ?_, fun hf => by simp at hf⟩
        have := (ihmem p hp).1 ht
        intro he
        exact this (he ▸ List.mem_cons_self _ _)
    · by_cases h2 : hashFn r.content ∉ sc
      · obtain ⟨ihmap, ihmem, ihpw⟩ := ih si (hashFn r.content :: sc)
        simp only [dedup_tagged_go, deduplicate_go, if_neg h1, if_pos h2]
        refine ⟨by simp [ihmap], ?_, ?_⟩
        · intro p hp
          rcases List.mem_cons.mp hp with rfl | hp
          · exact ⟨fun ht => by simp at ht, fun _ => h2⟩
          · refine ⟨(ihmem p hp).1, fun hf => ?_⟩
            have := (ihmem p hp).2 hf
            exact fun hin => this (List.mem_cons_of_mem _ hin)
        · rw [List.pairwise_cons]
          refine ⟨?_, ihpw⟩
          intro p hp
          refine ⟨fun ht => by simp at ht, fun _ hf => ?_⟩
          have := (ihmem p hp).2 hf
          intro he
          exact this (he ▸ List.mem_cons_self _ _)
      · obtain ⟨ihmap, ihmem, ihpw⟩ := ih si sc
        simp only [dedup_tagged_go, deduplicate_go, if_neg h1, if_neg h2]
        exact ⟨ihmap, ihmem, ihpw⟩

/-- C7 (amended): the merge-step deduplication admits an entry either
through the id rule (nonempty, unseen id) or through the content-hash
rule, where the id rule records only ids of id-admitted entries and the
hash rule records only hashes of hash-admitted entries.  Consequently no
two id-admitted entries share an id and no two hash-admitted entries
share a content hash, with first occurrences kept — but an entry whose id
was already seen can still be admitted by the hash rule, so the output
may contain two entries with the same id (see the counterexample). -/
theorem C7_dedup_amended (hashFn : String → String)
    (results : List SearchResult) :
    ((dedup_tagged hashFn results).map Prod.fst =
      deduplicate_results hashFn results) ∧
    List.Pairwise (fun a b : SearchResult × Bool =>
      (a.2 = true → b.2 = true → a.1.id ≠ b.1.id) ∧
      (a.2 = false → b.2 = false →
        hashFn a.1.content ≠ hashFn b.1.content))
      (dedup_tagged hashFn results) := by
  obtain ⟨h1, _, h3⟩ := dedup_tagged_go_spec hashFn results [] []
  exact ⟨h1, h3⟩

/-- `pyMinImportance` returns `none` exactly on the empty partition. -/
theorem pyMinImportance_eq_none (part : CachePartition) :
    pyMinImportance part = none ↔ part = [] := by
  cases part <;> simp [pyMinImportance]

/-- The minimum returned by `pyMinImportance` is an element of the
partition. -/
theorem pyMinImportance_mem :
    ∀ (part : CachePartition) (m : String × CacheEntry),
      pyMinImportance part = some m → m ∈ part
  | [], m => by simp [pyMinImportance]
  | x :: xs, m => by
    intro h
    rw [pyMinImportance] at h
    cases h
    cases hxs : pyMinImportance xs with
    | none => simp only [pyMinStep]; exact List.mem_cons_self _ _
    | some m' =>
      simp only [pyMinStep]
      split
      · exact List.mem_cons_of_mem _ (pyMinImportance_mem xs _ hxs)
      · exact List.mem_cons_self _ _

/-- The minimum returned by `pyMinImportance` has minimal importance. -/
theorem pyMinImportance_min :
    ∀ (part : CachePartition) (m : String × CacheEntry),
      pyMinImportance part = some m →
      ∀ x ∈ part, m.2.importance ≤ x.2.importance
  | [], m => by simp [pyMinImportance]
  | x :: xs, m => by
    intro h
    rw [pyMinImportance] at h
    cases h
    cases hxs : pyMinImportance xs with
    | none =>
      have hnil := (pyMinImportance_eq_none xs).mp hxs
      subst hnil
      simp [pyMinStep]
    | some m' =>
      have ih := pyMinImportance_min xs m' hxs
      simp only [pyMinStep]
      split
      · rename_i hlt
        intro y hy
        rcases List.mem_cons.mp hy with rfl | hy
        · exact le_of_lt hlt
        · exact ih y hy
      · rename_i hlt
        intro y hy
        rcases List.mem_cons.mp hy with rfl | hy
        · exact le_refl _
        · exact le_trans (not_lt.mp hlt) (ih y hy)

/-- The minimum returned by `pyMinImportance` is the first minimal entry:
everything strictly before it in the partition has strictly larger
importance. -/
theorem pyMinImportance_first :
    ∀ (part : CachePartition) (m : String × CacheEntry),
      pyMinImportance part = some m →
      ∃ l1 l2, part = l1 ++ m :: l2 ∧
        ∀ x ∈ l1, m.2.importance < x.2.importance
  | [], m => by simp [pyMinImportance]
  | x :: xs, m => by
    intro h
    rw [pyMinImportance] at h
    cases h
    cases hxs : pyMinImportance xs with
    | none =>
      simp only [pyMinStep]
      exact ⟨[], xs, rfl, by simp⟩
    | some m' =>
      simp only [pyMinStep]
      split
      · rename_i hlt
        obtain ⟨l1, l2, hsplit, hl1⟩ := pyMinImportance_first xs m' hxs
        refine ⟨x :: l1, l2, by simp [hsplit], ?_⟩
        intro y hy
        rcases List.mem_cons.mp hy with rfl | hy
        · exact hlt
        · exact hl1 y hy
      · exact ⟨[], xs, rfl, by simp⟩

/-- Computable check that a partition's insertion order agrees with its
`cached_at` order (adjacent entries are in nondecreasing `cached_at`). -/
def cachedAtMono : CachePartition → Bool
  | [] => true
  | [_] => true
  | a :: b :: rest =>
    decide (a.2.cached_at ≤ b.2.cached_at) && cachedAtMono (b :: rest)

/-- The Bool check `cachedAtMono` implies the chain proposition. -/
theorem cachedAtMono_chain' :
    ∀ l : CachePartition, cachedAtMono l = true →
      l.Chain' (fun a b => a.2.cached_at ≤ b.2.cached_at)
  | [], _ => List.chain'_nil
  | [a], _ => by simp
  | a :: b :: rest, h => by
    simp only [cachedAtMono, Bool.and_eq_true, decide_eq_true_eq] at h
    rw [List.chain'_cons]
    exact ⟨h.1, cachedAtMono_chain' (b :: rest) h.2⟩

/-- C9 (amended): admitting to a partition at capacity evicts the first
entry in dict insertion order among those of minimal importance; this is
the oldest `cached_at` among minimal entries only when insertion order
agrees with `cached_at` order (no key was overwritten), which this
theorem assumes.  The partition size is unchanged provided the admitted
key is not already present. -/
theorem C9_eviction_amended (now : Nat) (part : CachePartition)
    (memory_id content : String) (metadata : Metadata) (importance : ℚ)
    (hcap : part.length = max_cache_size)
    (hmono : cachedAtMono part = true)
    (hthr : importance_threshold ≤ importance)
    (hkey : (metadata.key.getD memory_id) ∉ part.map (fun p => p.1)) :
    ∃ k v, pyMinImportance part = some (k, v) ∧ (k, v) ∈ part ∧
      (∀ x ∈ part, v.importance ≤ x.2.importance) ∧
      (∀ x ∈ part, x.2.importance = v.importance →
        v.cached_at ≤ x.2.cached_at) ∧
      add_to_partition now part memory_id content metadata importance =
        dictErase part k ++
          [(metadata.key.getD memory_id,
            { id := memory_id, content := content, metadata := metadata,
              importance := importance, cached_at := now })] ∧
      (add_to_partition now part memory_id content metadata
          importance).length = max_cache_size := by
  have hne : part ≠ [] := by
    intro h
    rw [h] at hcap
    simp [max_cache_size] at hcap
  obtain ⟨m, hm⟩ : ∃ m, pyMinImportance part = some m := by
    cases hpm : pyMinImportance part with
    | none => exact absurd ((pyMinImportance_eq_none part).mp hpm) hne
    | some m => exact ⟨m, rfl⟩
  obtain ⟨k, v⟩ := m
  have hmem := pyMinImportance_mem part _ hm
  have hmin := pyMinImportance_min part _ hm
  have htie : ∀ x ∈ part, x.2.importance = v.importance →
      v.cached_at ≤ x.2.cached_at := by
    obtain ⟨l1, l2, hsplit, hl1⟩ := pyMinImportance_first part _ hm
    haveI : IsTrans (String × CacheEntry)
        (fun a b => a.2.cached_at ≤ b.2.cached_at) :=
      ⟨fun _ _ _ h1 h2 => le_trans h1 h2⟩
    have hpw := List.chain'_iff_pairwise.mp (cachedAtMono_chain' part hmono)
    rw [hsplit] at hpw
    rw [hsplit]
    intro x hx heq
    rcases List.mem_append.mp hx with hx1 | hx2
    · exact absurd heq (ne_of_gt (hl1 x hx1))
    · rcases List.mem_cons.mp hx2 with rfl | hx2
      · exact le_refl _
      · exact (List.pairwise_cons.mp (List.pairwise_append.mp hpw).2.1).1 x hx2
  have herase_keys : ∀ p ∈ dictErase part k,
      ¬ p.1 = metadata.key.getD memory_id := by
    intro p hp he
    have hsub : p ∈ part := (List.eraseP_sublist part).subset hp
    exact hkey (he ▸ List.mem_map_of_mem (fun q => q.1) hsub)
  have hany : ¬ ((dictErase part k).any
      (fun p => p.1 = metadata.key.getD memory_id) = true) := by
    simp only [List.any_eq_true, decide_eq_true_eq]
    rintro ⟨p, hp, hpe⟩
    exact herase_keys p hp hpe
  have hadd : add_to_partition now part memory_id content metadata
      importance =
      dictErase part k ++
        [(metadata.key.getD memory_id,
          { id := memory_id, content := content, metadata := metadata,
            importance := importance, cached_at := now })] := by
    unfold add_to_partition
    rw [if_pos (ge_of_eq hcap), hm]
    unfold dictInsert
    rw [if_neg hany]
  refine ⟨k, v, hm, hmem, hmin, htie, hadd, ?_⟩
  rw [hadd]
  have hel : (dictErase part k).length = part.length - 1 := by
    unfold dictErase
    exact List.length_eraseP_of_mem hmem (by simp)
  rw [List.length_append, hel, hcap]
  simp [max_cache_size]

set_option maxRecDepth 10000

/-- A full partition (1000 entries) whose insertion order agrees with
`cached_at` order; used to witness C9 as amended. -/
def c9part_w : CachePartition :=
  (List.range max_cache_size).map (fun i =>
    ("k" ++ toString i,
      { id := "k" ++ toString i, content := "", metadata := {},
        importance := mkRat 9 10, cached_at := i }))

/-- Witness for C9 as amended at a concrete full partition. -/
theorem C9_eviction_amended_witness :
    ∃ k v, pyMinImportance c9part_w = some (k, v) ∧ (k, v) ∈ c9part_w ∧
      (∀ x ∈ c9part_w, v.importance ≤ x.2.importance) ∧
      (∀ x ∈ c9part_w, x.2.importance = v.importance →
        v.cached_at ≤ x.2.cached_at) ∧
      add_to_partition 2000 c9part_w "new" "" {} 1 =
        dictErase c9part_w k ++
          [(({} : Metadata).key.getD "new",
            { id := "new", content := "", metadata := {},
              importance := 1, cached_at := 2000 })] ∧
      (add_to_partition 2000 c9part_w "new" "" {} 1).length =
        max_cache_size :=
  C9_eviction_amended 2000 c9part_w "new" "" {} 1
    (by simp [c9part_w, max_cache_size])
    (by decide)
    (by decide)
    (by decide)

/-- On a partition whose entries all share one importance, the Python
minimum exists and has that importance. -/
theorem pyMin_uniform (l : CachePartition) (hne : l ≠ []) (c : ℚ)
    (h : ∀ x ∈ l, x.2.importance = c) :
    ∃ m, pyMinImportance l = some m ∧ m.2.importance = c := by
  cases hpm : pyMinImportance l with
  | none => exact absurd ((pyMinImportance_eq_none l).mp hpm) hne
  | some m => exact ⟨m, rfl, h m (pyMinImportance_mem l m hpm)⟩

/-- A string starting with the letter k differs from any string that does
not. -/
theorem kkey_ne (t s : String) (hs : ¬ s.data.head? = some 'k') :
    ¬ ("k" ++ t = s) := by
  intro h
  apply hs
  rw [← h, String.data_append]
  rfl

/-- The newer of the two minimal-importance entries of the C9
counterexample partition. -/
def entryA : CacheEntry :=
  { id := "a", content := "", metadata := {}, importance := mkRat 1 2,
    cached_at := 100 }

/-- The older of the two minimal-importance entries of the C9
counterexample partition. -/
def entryB : CacheEntry :=
  { id := "b", content := "", metadata := {}, importance := mkRat 1 2,
    cached_at := 50 }

/-- 998 filler entries of higher importance. -/
def c9fillers : CachePartition :=
  (List.range 998).map (fun i =>
    ("k" ++ toString i,
      { id := "k" ++ toString i, content := "", metadata := {},
        importance := mkRat 9 10, cached_at := 0 }))

/-- A full partition with an importance tie between its first two entries:
the first ("a") is newer (`cached_at` 100), the second ("b") older
(`cached_at` 50); the 998 fillers are more important. -/
def c9part_cx : CachePartition :=
  ("a", entryA) :: ("b", entryB) :: c9fillers

/-- Counterexample to C9 as stated: on an importance tie, the evicted
entry is the first in dict insertion order ("a", `cached_at` 100), not
the one with the oldest `cached_at` ("b", `cached_at` 50), which the
claim requires to be removed. -/
theorem C9_counterexample :
    c9part_cx.length = max_cache_size ∧
    (add_to_partition 200 c9part_cx "new" "" {} 1).any
        (fun p => p.1 = "b") = true ∧
    (add_to_partition 200 c9part_cx "new" "" {} 1).any
        (fun p => p.1 = "a") = false ∧
    (add_to_partition 200 c9part_cx "new" "" {} 1).length =
      max_cache_size := by
  have hfmem : ∀ x ∈ c9fillers, x.2.importance = mkRat 9 10 := by
    intro x hx
    obtain ⟨i, _, rfl⟩ := List.mem_map.mp hx
    rfl
  have hfne : c9fillers ≠ [] := by
    intro h
    have := congrArg List.length h
    simp [c9fillers] at this
  obtain ⟨m, hm, hmc⟩ := pyMin_uniform c9fillers hfne (mkRat 9 10) hfmem
  have hb : pyMinImportance (("b", entryB) :: c9fillers) =
      some ("b", entryB) := by
    rw [pyMinImportance, hm]
    simp only [pyMinStep]
    rw [if_neg]
    rw [hmc]
    decide
  have ha : pyMinImportance c9part_cx = some ("a", entryA) := by
    show pyMinImportance (("a", entryA) :: ("b", entryB) :: c9fillers) = _
    rw [pyMinImportance, hb]
    simp only [pyMinStep]
    rw [if_neg]
    decide
  have hlen : c9part_cx.length = 1000 := by
    simp [c9part_cx, c9fillers]
  have herase : dictErase c9part_cx "a" = ("b", entryB) :: c9fillers := by
    show (( ("a", entryA) :: ("b", entryB) :: c9fillers).eraseP
      (fun p => p.1 == "a")) = _
    rw [List.eraseP_cons_of_pos]
    rfl
  have hany : ¬ ((("b", entryB) :: c9fillers).any
      (fun p => p.1 = "new") = true) := by
    simp only [List.any_eq_true, decide_eq_true_eq]
    rintro ⟨p, hp, hpe⟩
    rcases List.mem_cons.mp hp with rfl | hp
    · simp at hpe
    · obtain ⟨i, _, rfl⟩ := List.mem_map.mp hp
      exact kkey_ne (toString i) "new" (by decide) hpe
  have hadd : add_to_partition 200 c9part_cx "new" "" {} 1 =
      (("b", entryB) :: c9fillers) ++
        [("new", { id := "new", content := "", metadata := {},
                   importance := 1, cached_at := 200 })] := by
    unfold add_to_partition
    rw [if_pos (by rw [hlen]; exact le_refl _), ha]
    dsimp only
    rw [herase]
    unfold dictInsert
    simp only [Option.getD_none]
    rw [if_neg hany]
  refine ⟨by rw [hlen]; rfl, ?_, ?_, ?_⟩
  · rw [hadd]
    simp
  · rw [hadd, List.any_eq_false]
    intro p hp
    simp only [decide_eq_true_eq]
    rcases List.mem_append.mp hp with hp | hp
    · rcases List.mem_cons.mp hp with rfl | hp
      · simp [entryB]
      · obtain ⟨i, _, rfl⟩ := List.mem_map.mp hp
        exact kkey_ne (toString i) "a" (by decide)
    · rcases List.mem_cons.mp hp with rfl | hp
      · simp
      · simp at hp
  · rw [hadd]
    simp [c9fillers, max_cache_size]

/-- Membership through a SQL limit. -/
theorem mem_sqlLimit {α : Type} {x : α} {n : Int} {l : List α}
    (h : x ∈ sqlLimit n l) : x ∈ l := by
  unfold sqlLimit at h
  split at h
  · exact h
  · exact List.mem_of_mem_take h

/-- Membership through a Python slice. -/
theorem mem_pySlice {α : Type} {x : α} {n : Int} {l : List α}
    (h : x ∈ pySlice n l) : x ∈ l := by
  unfold pySlice at h
  split at h <;> exact List.mem_of_mem_take h

/-- C3 (amended): the durable-store keyword scan and the vector scan only
surface live rows — every result they return corresponds to a store row
that is not expired at query time.  (The Hot Cache scan and the delegate
path carry no expiry filter, so expired records can still be returned
through them; see the counterexample.) -/
theorem C3_store_scans_exclude_expired (cfg : Config) (now : Nat)
    (db : List MemRecord) (query memory_type : String) (limit : Int)
    (uid : String) :
    (∀ r ∈ search_database now db query memory_type limit uid,
      ∃ row ∈ db, row.id = r.id ∧ rowLive now row = true) ∧
    (∀ r ∈ vector_search cfg now db query memory_type limit uid,
      ∃ row ∈ db, row.id = r.id ∧ rowLive now row = true) := by
  constructor
  · intro r hr
    unfold search_database at hr
    obtain ⟨row, hrow, rfl⟩ := List.mem_map.mp hr
    have hrow2 := List.mem_mergeSort.mp (mem_sqlLimit hrow)
    have hrow3 := List.mem_filter.mp hrow2
    refine ⟨row, hrow3.1, rfl, ?_⟩
    have := hrow3.2
    simp only [matches_db_row, Bool.and_eq_true] at this
    exact this.2
  · intro r hr
    unfold vector_search at hr
    cases henc : cfg.encoder with
    | none => rw [henc] at hr; simp at hr
    | some enc =>
      rw [henc] at hr
      simp only at hr
      have hr2 := List.mem_mergeSort.mp (mem_pySlice hr)
      obtain ⟨row, hrow, hf⟩ := List.mem_filterMap.mp hr2
      have hrow2 := List.mem_filter.mp (List.mem_mergeSort.mp
        (mem_sqlLimit hrow))
      have hid : row.id = r.id := by
        cases hemb : row.embedding with
        | none => rw [hemb] at hf; simp at hf
        | some e =>
          rw [hemb] at hf
          simp only at hf
          split at hf
          · cases hf; rfl
          · simp at hf
      refine ⟨row, hrow2.1, hid, ?_⟩
      have := hrow2.2
      simp only [Bool.and_eq_true] at this
      exact this.2

/-- Witness for C3 as amended: a concrete keyword hit resolves to a live
store row. -/
theorem C3_store_scans_exclude_expired_witness :
    ∃ row ∈ [sampleRow], row.id =
      ({ id := "a", rtype := "user", content := "hello", metadata := {},
         importance := mkRat 1 2, relevance_score := mkRat 1 1,
         source := "database", created_at := 0 } : SearchResult).id ∧
      rowLive 0 row = true :=
  (C3_store_scans_exclude_expired cfg0 0 [sampleRow] "hello" "user" 10
      "default").1
    { id := "a", rtype := "user", content := "hello", metadata := {},
      importance := mkRat 1 2, relevance_score := mkRat 1 1,
      source := "database", created_at := 0 }
    (List.mem_singleton_self _)

/-- An expired row that is still resident in the Hot Cache. -/
def rowE : MemRecord :=
  { id := "e", memory_type := "user", content := "hello", metadata := {},
    embedding := none, importance := 9/10, access_count := 0,
    user_id := "default", hash := "hello", created_at := 0, updated_at := 0,
    expires_at := some 1 }

/-- The cache entry for the expired row `rowE`. -/
def cacheE : CacheEntry :=
  { id := "e", content := "hello", metadata := {}, importance := 9/10,
    cached_at := 0 }

/-- A state in which the expired row `rowE` still sits in the Hot Cache
because the Janitor has not yet run. -/
def st_c3 : EngineState :=
  { db := [rowE], session_db := [], mappings := [],
    memory_cache := [("user", [("e", cacheE)]), ("session", []),
      ("agent", []), ("vision", []), ("interaction", [])],
    memory_hashes := ["hello"], current_session_id := none,
    session_memories := [], nextId := 1 }

/-- Counterexample to C3 as stated: at time 5 the row "e" expired at time
1, yet search returns it because the Hot Cache scan has no expiry
filter. -/
theorem C3_counterexample :
    ((search_memory cfg0 5 st_c3 "hello" "user" 10 "default" true).1.map
      (fun r => r.id) = ["e"]) ∧
    rowLive 5 rowE = false ∧ st_c3.db = [rowE] := by
  refine ⟨?_, ?_, ?_⟩ <;> rfl

/-- Every partition of a cleared cache is empty. -/
theorem getPartition_clearCache (c : Cache) (k : String) :
    getPartition (clearCache c) k = [] := by
  unfold getPartition clearCache
  induction c with
  | nil => simp
  | cons p rest ih =>
    by_cases hp : p.1 = k
    · simp [List.find?_cons, hp]
    · simpa [List.find?_cons, hp] using ih

/-- Clearing the cache keeps its kind keys, so the scanned partitions are
the same. -/
theorem search_types_clearCache (c : Cache) (memory_type : String) :
    search_types (clearCache c) memory_type = search_types c memory_type := by
  unfold search_types clearCache
  rw [List.map_map, List.any_map]
  rfl

/-- A cleared cache contributes nothing to the cache scan. -/
theorem cache_scan_cleared (st : EngineState) (query memory_type : String) :
    cache_scan { st with memory_cache := clearCache st.memory_cache }
      query memory_type = [] := by
  unfold cache_scan
  rw [List.flatten_eq_nil_iff]
  intro l hl
  obtain ⟨t, _, rfl⟩ := List.mem_map.mp hl
  rw [show ({ st with memory_cache := clearCache st.memory_cache } :
      EngineState).memory_cache = clearCache st.memory_cache from rfl]
  rw [getPartition_clearCache]
  simp

/-- When no cached entry matches the query, the cache scan is empty. -/
theorem cache_scan_no_match (st : EngineState) (query memory_type : String)
    (h : ∀ t ∈ search_types st.memory_cache memory_type,
      ∀ p ∈ getPartition st.memory_cache t,
        strContains (lowerStr p.2.content) (lowerStr query) = false) :
    cache_scan st query memory_type = [] := by
  unfold cache_scan
  rw [List.flatten_eq_nil_iff]
  intro l hl
  obtain ⟨t, ht, rfl⟩ := List.mem_map.mp hl
  rw [List.filter_eq_nil_iff.mpr ?_]
  · simp
  · intro p hp
    simp [h t ht p hp]

/-- C4 (amended): when no entry of the scanned Hot Cache partitions
matches the query, clearing the cache changes neither the returned result
list nor the resulting durable store.  (When a cache entry does match, it
counts against the database fetch budget and can change the membership of
the result set — see the counterexample.) -/
theorem C4_cache_equiv_amended (cfg : Config) (now : Nat) (st : EngineState)
    (query memory_type : String) (limit : Nat) (uid : String)
    (use_semantic : Bool)
    (h : ∀ t ∈ search_types st.memory_cache memory_type,
      ∀ p ∈ getPartition st.memory_cache t,
        strContains (lowerStr p.2.content) (lowerStr query) = false) :
    (search_memory cfg now st query memory_type limit uid use_semantic).1 =
      (search_memory cfg now
        { st with memory_cache := clearCache st.memory_cache } query
        memory_type limit uid use_semantic).1 ∧
    (search_memory cfg now st query memory_type limit uid
        use_semantic).2.db =
      (search_memory cfg now
        { st with memory_cache := clearCache st.memory_cache } query
        memory_type limit uid use_semantic).2.db := by
  have hm : mem0_results cfg
      { st with memory_cache := clearCache st.memory_cache } query uid limit
      use_semantic = mem0_results cfg st query uid limit use_semantic := rfl
  have hts : ∀ (tl : Int) (init : List SearchResult),
      traditional_search now
        { st with memory_cache := clearCache st.memory_cache } query
        memory_type tl init uid =
      traditional_search now st query memory_type tl init uid := by
    intro tl init
    unfold traditional_search
    rw [cache_scan_cleared, cache_scan_no_match st query memory_type h]
  have hc : search_candidates cfg now
      { st with memory_cache := clearCache st.memory_cache } query
      memory_type limit uid use_semantic =
      search_candidates cfg now st query memory_type limit uid
        use_semantic := by
    simp only [search_candidates]
    rw [hm, hts]
  have he : early_exit_fires cfg
      { st with memory_cache := clearCache st.memory_cache } query uid limit
      use_semantic = early_exit_fires cfg st query uid limit use_semantic := by
    unfold early_exit_fires
    rw [hm]
  by_cases hee : early_exit_fires cfg st query uid limit use_semantic = true
  · constructor
    · unfold search_memory
      rw [if_pos hee, if_pos (he.trans hee), hm]
    · unfold search_memory
      rw [if_pos hee, if_pos (he.trans hee)]
  · constructor
    · unfold search_memory
      rw [if_neg hee, if_neg (fun hx => hee (he.symm.trans hx)), hc]
    · unfold search_memory
      rw [if_neg hee, if_neg (fun hx => hee (he.symm.trans hx)), hc]

/-- A high-importance row matching the query; also resident in the cache
in the C4 counterexample state. -/
def rowA : MemRecord :=
  { id := "a", memory_type := "user", content := "q x", metadata := {},
    embedding := none, importance := mkRat 9 10, access_count := 0,
    user_id := "default", hash := "q x", created_at := 0, updated_at := 0,
    expires_at := none }

/-- A second, slightly less important row matching the query. -/
def rowB : MemRecord :=
  { id := "b", memory_type := "user", content := "q y", metadata := {},
    embedding := none, importance := mkRat 8 10, access_count := 0,
    user_id := "default", hash := "q y", created_at := 0, updated_at := 0,
    expires_at := none }

/-- The cache entry mirroring `rowA`. -/
def cacheA : CacheEntry :=
  { id := "a", content := "q x", metadata := {}, importance := mkRat 9 10,
    cached_at := 0 }

/-- A state whose store holds `rowA` and `rowB` and whose Hot Cache holds
`rowA`. -/
def st_c4 : EngineState :=
  { db := [rowA, rowB], session_db := [], mappings := [],
    memory_cache := [("user", [("a", cacheA)]), ("session", []),
      ("agent", []), ("vision", []), ("interaction", [])],
    memory_hashes := ["q x", "q y"], current_session_id := none,
    session_memories := [], nextId := 2 }

/-- Counterexample to C4 as stated: with the cache populated, the cache
hit for "a" consumes one slot of the database fetch budget
(`limit - len(results)`), so row "b" is fetched and returned only when
the cache is disabled — the result-id set changes from two ids to one. -/
theorem C4_counterexample :
    ("b" ∈ (search_memory cfg0 0
        { st_c4 with memory_cache := clearCache st_c4.memory_cache } "q"
        "user" 2 "default" true).1.map (fun r => r.id)) ∧
    ("b" ∉ (search_memory cfg0 0 st_c4 "q" "user" 2 "default" true).1.map
        (fun r => r.id)) ∧
    ("a" ∈ (search_memory cfg0 0 st_c4 "q" "user" 2 "default" true).1.map
        (fun r => r.id)) ∧
    ("a" ∈ (search_memory cfg0 0
        { st_c4 with memory_cache := clearCache st_c4.memory_cache } "q"
        "user" 2 "default" true).1.map (fun r => r.id)) := by
  refine ⟨?_, ?_, ?_, ?_⟩ <;> decide

/-- Witness for C4 as amended: for the query "y" no cache entry matches,
and the populated-cache and cleared-cache searches agree exactly. -/
theorem C4_cache_equiv_amended_witness :
    ((search_memory cfg0 0 st_c4 "y" "user" 2 "default" true).1 =
      (search_memory cfg0 0
        { st_c4 with memory_cache := clearCache st_c4.memory_cache } "y"
        "user" 2 "default" true).1) ∧
    ((search_memory cfg0 0 st_c4 "y" "user" 2 "default" true).2.db =
      (search_memory cfg0 0
        { st_c4 with memory_cache := clearCache st_c4.memory_cache } "y"
        "user" 2 "default" true).2.db) :=
  C4_cache_equiv_amended cfg0 0 st_c4 "y" "user" 2 "default" true
    (by decide)

/-- The final ranking relation is transitive. -/
theorem finalLe_trans (a b c : SearchResult) :
    finalLe a b → finalLe b c → finalLe a c := by
  unfold finalLe
  simp only [decide_eq_true_eq]
  rintro (h1 | ⟨h1, h2⟩) (h3 | ⟨h3, h4⟩)
  · exact Or.inl (lt_trans h3 h1)
  · exact Or.inl (h3 ▸ h1)
  · exact Or.inl (h1 ▸ h3)
  · exact Or.inr ⟨h3.trans h1, h4.trans h2⟩

/-- The final ranking relation is total. -/
theorem finalLe_total (a b : SearchResult) :
    finalLe a b || finalLe b a := by
  unfold finalLe
  rcases lt_trichotomy a.relevance_score b.relevance_score with h | h | h
  · simp [h]
  · rcases le_total a.importance b.importance with h2 | h2 <;> simp [h, h2]
  · simp [h]

/-- C5 (amended): the returned list never exceeds `limit`; and whenever
the delegate early exit does not fire, the returned list is sorted in
descending lexicographic `(relevance_score, importance)` order.  (On an
early exit the delegate's hits are returned in delegate order, unsorted —
see the counterexample.) -/
theorem C5_sorted_amended (cfg : Config) (now : Nat) (st : EngineState)
    (query memory_type : String) (limit : Nat) (uid : String)
    (use_semantic : Bool) :
    (search_memory cfg now st query memory_type limit uid
        use_semantic).1.length ≤ limit ∧
    (early_exit_fires cfg st query uid limit use_semantic = false →
      (search_memory cfg now st query memory_type limit uid
          use_semantic).1.Pairwise (fun a b => finalLe a b = true)) := by
  constructor
  · unfold search_memory
    split
    · exact List.length_take_le _ _
    · exact List.length_take_le _ _
  · intro hee
    unfold search_memory
    rw [if_neg (by simp [hee])]
    have hsorted : (search_candidates cfg now st query memory_type limit
        uid use_semantic).Pairwise (fun a b => finalLe a b = true) := by
      unfold search_candidates
      exact List.sorted_mergeSort
        (fun a b c hab hbc => finalLe_trans a b c hab hbc)
        (fun a b => finalLe_total a b) _
    exact hsorted.sublist (List.take_sublist _ _)

/-- A delegate hit with a low score, listed first by the delegate. -/
def hitLow : Mem0Hit :=
  { id := "m1", memory := "low", metadata := {}, score := mkRat 1 10,
    created_at := 0 }

/-- A delegate hit with a high score, listed second by the delegate. -/
def hitHigh : Mem0Hit :=
  { id := "m2", memory := "high", metadata := {}, score := mkRat 9 10,
    created_at := 0 }

/-- A delegate returning the low-scored hit before the high-scored one. -/
def mem0_unsorted : Mem0Client :=
  { search := fun _ _ _ => [hitLow, hitHigh], add := fun _ _ => none }

/-- A configuration with the unsorted delegate attached. -/
def cfg_mem0 : Config :=
  { hashFn := fun s => s, mem0_client := some mem0_unsorted,
    encoder := none, cosine := fun _ _ => 0 }

/-- Counterexample to C5 as stated: when the delegate alone fills the
limit, `search_memory` returns its hits in delegate order without the
final `(relevance_score, importance)` sort — here relevance 1/10 is
returned before 9/10. -/
theorem C5_counterexample :
    ((search_memory cfg_mem0 0 initState "q" "all" 2 "default" true).1.map
      (fun r => r.relevance_score) = [mkRat 1 10, mkRat 9 10]) ∧
    ¬ (search_memory cfg_mem0 0 initState "q" "all" 2 "default"
        true).1.Pairwise (fun a b => finalLe a b = true) := by
  constructor
  · rfl
  · decide

/-- Witness for C5 as amended: a concrete search without an early exit is
truncated to the limit and sorted. -/
theorem C5_sorted_amended_witness :
    (search_memory cfg0 0 st_c4 "q" "user" 2 "default" true).1.length ≤ 2 ∧
    (search_memory cfg0 0 st_c4 "q" "user" 2 "default" true).1.Pairwise
      (fun a b => finalLe a b = true) :=
  ⟨(C5_sorted_amended cfg0 0 st_c4 "q" "user" 2 "default" true).1,
   (C5_sorted_amended cfg0 0 st_c4 "q" "user" 2 "default" true).2
     (by decide)⟩

/-- The batched access-count update adds, to every row, the number of
occurrences of its id in the id list, stamping `updated_at` on touched
rows. -/
theorem update_access_counts_spec (now : Nat) :
    ∀ (memory_ids : List String) (db : List MemRecord),
      update_access_counts now db memory_ids =
        db.map (fun r =>
          { r with access_count := r.access_count + memory_ids.count r.id,
                   updated_at := if r.id ∈ memory_ids then now
                                 else r.updated_at })
  | [], db => by
    unfold update_access_counts
    simp only [List.foldl_nil, List.count_nil, List.not_mem_nil, if_false,
      Nat.add_zero]
    exact (List.map_id' db).symm
  | i :: ids, db => by
    unfold update_access_counts
    rw [List.foldl_cons]
    have ih := update_access_counts_spec now ids
      (db.map (fun r =>
        if r.id = i then
          { r with access_count := r.access_count + 1, updated_at := now }
        else r))
    unfold update_access_counts at ih
    rw [ih, List.map_map]
    apply List.map_congr_left
    intro r _
    by_cases hr : r.id = i
    · simp only [Function.comp, hr, if_pos rfl]
      simp [List.count_cons, hr, Nat.add_comm, Nat.add_assoc,
        Nat.add_left_comm]
    · simp only [Function.comp, hr, if_neg hr]
      simp [List.count_cons, hr, List.mem_cons]

/-- C6 (amended): when the delegate early exit does not fire, the batched
access-count update covers the whole deduplicated candidate list —
including candidates beyond the returned `limit` — incrementing each
row's count once per occurrence of its id there; rows whose id does not
occur are untouched.  (On an early exit nothing is incremented at all,
even for returned records — see the counterexample.) -/
theorem C6_access_counts_amended (cfg : Config) (now : Nat)
    (st : EngineState) (query memory_type : String) (limit : Nat)
    (uid : String) (use_semantic : Bool)
    (hee : early_exit_fires cfg st query uid limit use_semantic = false) :
    (search_memory cfg now st query memory_type limit uid
        use_semantic).2.db =
      st.db.map (fun r =>
        { r with
          access_count := r.access_count +
            ((search_candidates cfg now st query memory_type limit uid
                use_semantic).map (fun x => x.id)).count r.id,
          updated_at :=
            if r.id ∈ (search_candidates cfg now st query memory_type limit
                uid use_semantic).map (fun x => x.id) then now
            else r.updated_at }) := by
  unfold search_memory
  rw [if_neg (by simp [hee])]
  exact update_access_counts_spec now _ st.db

/-- Witness for C6 as amended at a concrete search without early exit. -/
theorem C6_access_counts_amended_witness :
    (search_memory cfg0 0 st_c4 "q" "user" 2 "default" true).2.db =
      st_c4.db.map (fun r =>
        { r with
          access_count := r.access_count +
            ((search_candidates cfg0 0 st_c4 "q" "user" 2 "default"
                true).map (fun x => x.id)).count r.id,
          updated_at :=
            if r.id ∈ (search_candidates cfg0 0 st_c4 "q" "user" 2 "default"
                true).map (fun x => x.id) then 0
            else r.updated_at }) :=
  C6_access_counts_amended cfg0 0 st_c4 "q" "user" 2 "default" true
    (by decide)

/-- A store row mirrored to the delegate under the delegate id m1. -/
def rowM : MemRecord :=
  { id := "a", memory_type := "user", content := "hello", metadata := {},
    embedding := none, importance := mkRat 1 2, access_count := 0,
    user_id := "default", hash := "hello", created_at := 0, updated_at := 0,
    expires_at := none }

/-- A state holding `rowM` and its delegate mapping. -/
def st_c6 : EngineState :=
  { db := [rowM], session_db := [], mappings := [("a", "m1")],
    memory_cache := init_cache, memory_hashes := ["hello"],
    current_session_id := none, session_memories := [], nextId := 1 }

/-- A delegate returning exactly the hit mapped to the local row "a". -/
def mem0_c6 : Mem0Client :=
  { search := fun _ _ _ =>
      [{ id := "m1", memory := "hello", metadata := {}, score := 1,
         created_at := 0 }],
    add := fun _ _ => none }

/-- The configuration with that delegate attached. -/
def cfg_c6 : Config :=
  { hashFn := fun s => s, mem0_client := some mem0_c6, encoder := none,
    cosine := fun _ _ => 0 }

/-- Counterexample to C6 as stated: the delegate early exit returns the
record with id "a", yet its `access_count` stays 0 — the returned record
is not incremented at all. -/
theorem C6_counterexample :
    ((search_memory cfg_c6 0 st_c6 "q" "all" 1 "default" true).1.map
      (fun r => r.id) = ["a"]) ∧
    ((search_memory cfg_c6 0 st_c6 "q" "all" 1 "default" true).2.db.map
      (fun r => r.access_count) = [0]) := by
  constructor <;> rfl
